import Mathlib

/-!
Shallow embedding of the table-reconstruction core of
`app.py` (invoice table extraction by coordinate analysis), together with
proofs about its behaviour.  Python floats are modelled as rationals,
Python strings as lists of characters (ASCII character classes), and
Python's stable `sorted` as a stable insertion sort.  Python exceptions
(here: reading a local variable before assignment) are modelled with
`Except`.
-/

namespace App

attribute [local semireducible] Rat.add Rat.mul Rat.sub Rat.inv

/-- Python strings are modelled as lists of characters. -/
abbrev Txt := List Char

/-- Test `beginsWith needle hay`: `hay` starts with `needle` (Python `str.startswith`). -/
def beginsWith : Txt → Txt → Bool
  | [], _ => true
  | _ :: _, [] => false
  | a :: as, b :: bs => a == b && beginsWith as bs

/-- Test `containsSub needle hay`: substring containment, Python `needle in hay`. -/
def containsSub (needle : Txt) : Txt → Bool
  | [] => needle.isEmpty
  | c :: rest => beginsWith needle (c :: rest) || containsSub needle rest

/-- Python truthiness of an optional string: `None` and `""` are falsy. -/
def textTruthy : Option Txt → Bool
  | none => false
  | some s => !s.isEmpty

/-- Python `s.strip() != ''`: the string has some non-whitespace character. -/
def stripNonEmpty (s : Txt) : Bool := s.any (fun c => !c.isWhitespace)

/-- Python `s.lower()` (ASCII). -/
def lowerTxt (s : Txt) : Txt := s.map Char.toLower

/-- The regex `:\s*\S` of `app.py` line 384: some `:` is followed, after only
whitespace, by a non-whitespace character; equivalently some `:` has a later
non-whitespace character. -/
def hasMetadataPattern : Txt → Bool
  | [] => false
  | c :: rest => (c == ':' && rest.any (fun d => !d.isWhitespace)) || hasMetadataPattern rest

/-- Number of whitespace-separated tokens (Python `len(s.split())`);
the flag records whether we are currently inside a token. -/
def tokenCountAux : Bool → Txt → Nat
  | _, [] => 0
  | inTok, c :: rest =>
    if c.isWhitespace then tokenCountAux false rest
    else (if inTok then 0 else 1) + tokenCountAux true rest

/-- Python `len(s.split())`. -/
def tokenCount (s : Txt) : Nat := tokenCountAux false s

/-- A word on the page: the tuple `(text, x0, top, x1, bottom)` of `app.py`. -/
structure Word where
  text : Txt
  x0 : ℚ
  y0 : ℚ
  x1 : ℚ
  y1 : ℚ
deriving DecidableEq, Repr

/-- A cell bounding box `(x0, top, x1, bottom)`. -/
abbrev BBox := ℚ × ℚ × ℚ × ℚ

/-- A table cell: the tuple `(bbox, text)` of `app.py`, either component may be `None`. -/
abbrev Cell := Option BBox × Option Txt

/-! ## `find_column_for_word` (app.py lines 49-80) -/

/-- Loop body of `find_column_for_word`, carrying the running column index. -/
def fcwAux (wx0 wx1 : ℚ) : Nat → List (ℚ × ℚ) → Int
  | _, [] => -1
  | idx, (c0, c1) :: rest =>
    let overlapStart := max wx0 c0
    let overlapEnd := min wx1 c1
    if overlapEnd > overlapStart then
      let overlapWidth := overlapEnd - overlapStart
      let wordWidth := wx1 - wx0
      let colWidth := c1 - c0
      if wordWidth > 0 ∧ (overlapWidth / wordWidth > 1/2 ∨ overlapWidth / colWidth > 1/2) then
        (idx : Int)
      else if wx0 ≥ c0 ∧ wx1 ≤ c1 then
        (idx : Int)
      else if (wx0 + wx1) / 2 ≥ c0 ∧ (wx0 + wx1) / 2 ≤ c1 then
        (idx : Int)
      else fcwAux wx0 wx1 (idx + 1) rest
    else fcwAux wx0 wx1 (idx + 1) rest

/-- Function `find_column_for_word(word_x0, word_x1, column_boundaries)` of app.py. -/
def find_column_for_word (wx0 wx1 : ℚ) (column_boundaries : List (ℚ × ℚ)) : Int :=
  fcwAux wx0 wx1 0 column_boundaries

/-! ## `separate_rows_by_vertical_gap` (app.py lines 82-133) -/

/-- The sort key order of `sorted(cell_words, key=lambda w: (w[2], w[1]))`. -/
def wordLe (a b : Word) : Prop := a.y0 < b.y0 ∨ (a.y0 = b.y0 ∧ a.x0 ≤ b.x0)

instance : DecidableRel wordLe := fun a b => by unfold wordLe; infer_instance

/-- The sort key order of `sorted(row, key=lambda w: w[1])`. -/
def x0Le (a b : Word) : Prop := a.x0 ≤ b.x0

instance : DecidableRel x0Le := fun a b => by unfold x0Le; infer_instance

/-- Python's stable `sorted` by key `(y0, x0)`, as a stable insertion sort. -/
def sortByYX (ws : List Word) : List Word := List.insertionSort wordLe ws

/-- Python's stable `sorted` by key `x0`, as a stable insertion sort. -/
def sortByX0 (ws : List Word) : List Word := List.insertionSort x0Le ws

/-- Gap threshold of `separate_rows_by_vertical_gap`: 0.7 times the average
positive word height over the first (up to) 10 sorted words, defaulting to 10. -/
def sepThreshold (sortedWords : List Word) : ℚ :=
  let sample := sortedWords.take 10
  let heights := (sample.map (fun w => w.y1 - w.y0)).filter (fun h => h > 0)
  let avg : ℚ := if heights.isEmpty then 10 else heights.sum / (heights.length : ℚ)
  avg * (7/10)

/-- Main loop of `separate_rows_by_vertical_gap`: walk the remaining sorted
words, carrying the current row, its running maximum bottom, and the rows
emitted so far. -/
def sepAux (thr : ℚ) : List Word → List Word → ℚ → List (List Word) → List (List Word)
  | [], cur, _, acc => acc ++ [sortByX0 cur]
  | w :: rest, cur, curMax, acc =>
    if w.y0 - curMax > thr then
      sepAux thr rest [w] w.y1 (acc ++ [sortByX0 cur])
    else
      sepAux thr rest (cur ++ [w]) (max curMax w.y1) acc

/-- Function `separate_rows_by_vertical_gap(cell_words)` of app.py. -/
def separate_rows_by_vertical_gap (cell_words : List Word) : List (List Word) :=
  match sortByYX cell_words with
  | [] => []
  | w :: rest => sepAux (sepThreshold (w :: rest)) rest [w] w.y1 []

/-! ## Header detection (app.py lines 336-402) -/

/-- The header keyword vocabulary `COLUMN_KEYWORDS`. -/
def COLUMN_KEYWORDS : List Txt :=
  [("item".toList), ("description".toList), ("product".toList), ("name".toList),
   ("particulars".toList), ("qty".toList), ("quantity".toList), ("rate".toList),
   ("price".toList), ("amount".toList), ("total".toList), ("gst".toList),
   ("tax".toList), ("hsn".toList), ("code".toList), ("unit".toList),
   ("net".toList), ("discount".toList)]

/-- Variable `row_text_content`: the lower-cased texts of the cells with truthy text
(app.py lines 361-371). -/
def rowTextContent (row : List Cell) : List Txt :=
  row.filterMap (fun c =>
    match c.2 with
    | some s => if s.isEmpty then none else some (lowerTxt s)
    | none => none)

/-- Counter `none_count_in_row`: number of cells whose bbox is `None` (app.py line 368). -/
def noneCountInRow (row : List Cell) : Nat :=
  row.countP (fun c => c.1.isNone)

/-- Number of vocabulary keywords occurring as substrings of one cell text
(app.py lines 390-392). -/
def cellKeywordCount (t : Txt) : Nat :=
  (COLUMN_KEYWORDS.filter (fun k => containsSub k t)).length

/-- Counter `matched_keyword_count` of a row: keyword hits summed over the non-blank
cell texts (app.py lines 378-392). -/
def matchedKeywordCount (row : List Cell) : Nat :=
  ((rowTextContent row).map (fun t => if stripNonEmpty t then cellKeywordCount t else 0)).sum

/-- Flag `row_contains_metadata_pattern` (app.py lines 379-388). -/
def rowContainsMetadata (row : List Cell) : Bool :=
  (rowTextContent row).any (fun t => stripNonEmpty t && hasMetadataPattern t)

/-- The header condition of app.py line 396:
`matched_keyword_count >= 3 and not row_contains_metadata_pattern`. -/
def rowQualifiesAsHeader (row : List Cell) : Bool :=
  decide (matchedKeywordCount row ≥ 3) && !rowContainsMetadata row

/-- One row of the header scan: a qualifying row overwrites
`(header_found_in_table, header_row_index)` (app.py lines 396-399). -/
def headerStep (hs : Bool × Int) (idx : Nat) (row : List Cell) : Bool × Int :=
  if rowQualifiesAsHeader row then (true, (idx : Int)) else hs

/-- The header-state fold over the rows of a table. -/
def headerScanAux : (Bool × Int) → Nat → List (List Cell) → Bool × Int
  | hs, _, [] => hs
  | hs, idx, row :: rest => headerScanAux (headerStep hs idx row) (idx + 1) rest

/-- Final `(header_found_in_table, header_row_index)` after scanning all rows
of a table (app.py lines 353-399); the cell marking performed while a row is
scanned touches only that row, after its own header check, so the header state
depends only on the original rows. -/
def headerScan (tbl : List (List Cell)) : Bool × Int :=
  headerScanAux (false, -1) 0 tbl

/-! ## Corruption marking (app.py lines 404-461)

`current_cell_words` and `avg_word_width` are locals of
`print_formatted_output`, assigned only under conditions, and read by the
sum-of-gaps check for every cell of a marking-eligible row.  They are modelled
as an explicit state threaded through the scan; reading such a variable before
any assignment is Python's `NameError`, modelled as `Except.error ()`. -/

/-- The persistent local variables `current_cell_words` and `avg_word_width`:
`none` models "not yet assigned". -/
structure MarkSt where
  cellWords : Option (List Word)
  avgWidth : Option ℚ
deriving DecidableEq, Repr

/-- Words within a cell bounding box with ±2 tolerance (app.py lines 427-432). -/
def wordsWithinBBox (pageWords : List Word) (bb : BBox) : List Word :=
  pageWords.filter (fun w =>
    decide (w.x0 ≥ bb.1 - 2) && decide (w.x1 ≤ bb.2.2.1 + 2) &&
    decide (w.y0 ≥ bb.2.1 - 2) && decide (w.y1 ≤ bb.2.2.2 + 2))

/-- Condition `should_mark_based_on_content_and_newlines` for a truthy text
(app.py lines 411-419): more than 3 newlines, and a digit, a letter, a symbol
and more than one whitespace-separated token. -/
def shouldMarkContent (t : Txt) : Bool :=
  decide (t.count '\n' > 3) &&
  (t.any Char.isDigit && t.any Char.isAlpha &&
   t.any (fun c => !(c.isAlphanum || c == '_') && !c.isWhitespace) &&
   decide (tokenCount t > 1))

/-- Horizontal gaps between consecutive words of a list (app.py lines 442-443
and 452-453: `x0` of the next word minus `x1` of the current word). -/
def consecGaps : List Word → List ℚ
  | a :: b :: rest => (b.x0 - a.x1) :: consecGaps (b :: rest)
  | _ => []

/-- The horizontal-gap check, condition (b), for one cell (app.py lines
422-446): when the cell has truthy text and a bounding box, collect the words
within the box into the persistent `current_cell_words`; when more than one,
sort them by `x0` in place, set the persistent `avg_word_width`, and flag a
consecutive gap exceeding 1.5 times the average width.  Returns the flag and
the updated persistent state. -/
def horizontalGapStep (pageWords : List Word) (st : MarkSt) (c : Cell) : Bool × MarkSt :=
  match c.1, c.2 with
  | some bb, some t =>
    if t.isEmpty then (false, st)
    else
      let cw := wordsWithinBBox pageWords bb
      if cw.length > 1 then
        let cwSorted := sortByX0 cw
        let widths := cwSorted.map (fun w => w.x1 - w.x0)
        let avg : ℚ := if widths.isEmpty then 10 else widths.sum / (widths.length : ℚ)
        let thr := avg * (3/2)
        ((consecGaps cwSorted).any (fun g => decide (g > thr)), ⟨some cwSorted, some avg⟩)
      else (false, ⟨some cw, st.avgWidth⟩)
  | _, _ => (false, st)

/-- App.py lines 459-461: prefix with `#$ ` when a condition fired and the
text is truthy and non-blank. -/
def markApply (c : Cell) (fired : Bool) : Cell :=
  match c.2 with
  | some t =>
    if fired && !t.isEmpty && stripNonEmpty t then (c.1, some (("#$ ".toList) ++ t)) else c
  | none => c

/-- Per-cell marking step (app.py lines 406-461): computes the three marking
conditions, updates the persistent word-list state, and prefixes the cell text
with `#$ ` when a condition fires on a non-blank text.  Reading the word list
(line 450) or the average width (line 455) before assignment is Python's
`NameError`, an error here. -/
def markCellStep (pageWords : List Word) (st : MarkSt) (c : Cell) : Except Unit (Cell × MarkSt) :=
  let m1 : Bool := match c.2 with
    | some t => !t.isEmpty && shouldMarkContent t
    | none => false
  let bStep := horizontalGapStep pageWords st c
  let m2 := bStep.1
  let st' := bStep.2
  match st'.cellWords with
  | none => .error ()
  | some ws =>
    if ws.length > 1 then
      match st'.avgWidth with
      | none => .error ()
      | some avg =>
        let m3 : Bool := decide ((consecGaps ws).sum > avg)
        .ok (markApply c (m1 || m2 || m3), st')
    else
      .ok (markApply c (m1 || m2 || false), st')

/-- Marking loop over the cells of one eligible row (app.py line 406). -/
def markCellsAux (pageWords : List Word) : MarkSt → List Cell → Except Unit (List Cell × MarkSt)
  | st, [] => .ok ([], st)
  | st, c :: rest =>
    match markCellStep pageWords st c with
    | .error e => .error e
    | .ok (c', st') =>
      match markCellsAux pageWords st' rest with
      | .error e => .error e
      | .ok (rest', st'') => .ok (c' :: rest', st'')

/-- The guard of app.py line 405:
`header_found_in_table and row_idx > header_row_index and none_count_in_row > 1`. -/
def markGuard (hs : Bool × Int) (idx : Nat) (row : List Cell) : Bool :=
  hs.1 && decide ((idx : Int) > hs.2) && decide (noneCountInRow row > 1)

/-- Row loop of app.py lines 356-461: per row, update the header state, then
(if the marking guard holds) run the per-cell marking with the persistent
word-list state.  Returns the processed rows and the final header state. -/
def scanRowsAux (pageWords : List Word) :
    (Bool × Int) → MarkSt → Nat → List (List Cell) → Except Unit (List (List Cell) × (Bool × Int))
  | hs, _, _, [] => .ok ([], hs)
  | hs, ms, idx, row :: rest =>
    let hs' := headerStep hs idx row
    if markGuard hs' idx row then
      match markCellsAux pageWords ms row with
      | .error e => .error e
      | .ok (row', ms') =>
        match scanRowsAux pageWords hs' ms' (idx + 1) rest with
        | .error e => .error e
        | .ok (rest', hsF) => .ok (row' :: rest', hsF)
    else
      match scanRowsAux pageWords hs' ms (idx + 1) rest with
      | .error e => .error e
      | .ok (rest', hsF) => .ok (row :: rest', hsF)

/-- Header detection and corruption marking for one table
(app.py lines 353-461). -/
def scanTable (tbl : List (List Cell)) (pageWords : List Word) :
    Except Unit (List (List Cell) × (Bool × Int)) :=
  scanRowsAux pageWords (false, -1) ⟨none, none⟩ 0 tbl

/-- The marking guard of each row, evaluated against the header state current
when that row is scanned (the same expression `scanRowsAux` branches on). -/
def guardSeq : (Bool × Int) → Nat → List (List Cell) → List Bool
  | _, _, [] => []
  | hs, idx, row :: rest =>
    let hs' := headerStep hs idx row
    markGuard hs' idx row :: guardSeq hs' (idx + 1) rest

/-! ## `create_structured_table` (app.py lines 135-333) -/

/-- A row "contains marked cells": some cell text is truthy and starts with
`#$` (app.py lines 165-169). -/
def rowHasMarkedCell (row : List Cell) : Bool :=
  row.any (fun c =>
    match c.2 with
    | some t => !t.isEmpty && beginsWith ("#$".toList) t
    | none => false)

/-- Column boundaries `(x0, x1)` from the header cells that have a bounding
box (app.py lines 151-155). -/
def columnBoundaries (headerCells : List Cell) : List (ℚ × ℚ) :=
  headerCells.filterMap (fun c => c.1.map (fun bb => (bb.1, bb.2.2.1)))

/-- Vertical span `[min top, max bottom]` over the cells of a row that have a
bounding box; `none` models the untouched `float('inf')` initialisation
(app.py lines 176-184 and 247-252). -/
def rowSpan (row : List Cell) : Option (ℚ × ℚ) :=
  row.foldl
    (fun acc c =>
      match c.1, acc with
      | some bb, some (mn, mx) => some (min mn bb.2.1, max mx bb.2.2.2)
      | some bb, none => some (bb.2.1, bb.2.2.2)
      | none, acc => acc)
    none

/-- The three-way vertical overlap test with ±2 tolerance
(app.py lines 191-193 and 259-261). -/
def wordOverlapsSpan (mn mx : ℚ) (w : Word) : Bool :=
  (decide (w.y0 ≥ mn - 2) && decide (w.y0 ≤ mx + 2)) ||
  (decide (w.y1 ≥ mn - 2) && decide (w.y1 ≤ mx + 2)) ||
  (decide (w.y0 ≤ mn - 2) && decide (w.y1 ≥ mx + 2))

/-- Page words overlapping a row's vertical span. -/
def wordsInSpan (pageWords : List Word) (mn mx : ℚ) : List Word :=
  pageWords.filter (wordOverlapsSpan mn mx)

/-- Python `abs` on rationals. -/
def pyAbs (q : ℚ) : ℚ := if q < 0 then -q else q

/-- Closest-column-by-center fallback (app.py lines 213-224 and 292-303):
running minimum distance with strict `<`, first column of a tie wins;
`-1` when the column list is empty. -/
def closestColAux (center : ℚ) : Nat → Option ℚ → Int → List (ℚ × ℚ) → Int
  | _, _, best, [] => best
  | idx, curMin, best, (c0, c1) :: rest =>
    let dist := pyAbs (center - (c0 + c1) / 2)
    match curMin with
    | none => closestColAux center (idx + 1) (some dist) (idx : Int) rest
    | some m =>
      if dist < m then closestColAux center (idx + 1) (some dist) (idx : Int) rest
      else closestColAux center (idx + 1) (some m) best rest

/-- Result `closest_col_idx` for a given center. -/
def closestColIdx (cols : List (ℚ × ℚ)) (center : ℚ) : Int :=
  closestColAux center 0 none (-1) cols

/-- Column effectively receiving a word in the marked-row path
(app.py lines 208-224): `find_column_for_word`, else closest center, else the
word is dropped. -/
def effectiveWordCol (cols : List (ℚ × ℚ)) (w : Word) : Option Nat :=
  let c := find_column_for_word w.x0 w.x1 cols
  if c ≠ -1 then some c.toNat
  else
    let cc := closestColIdx cols ((w.x0 + w.x1) / 2)
    if cc ≠ -1 then some cc.toNat else none

/-- Python `" ".join`. -/
def joinSpace (ts : List Txt) : Txt := List.intercalate (" ".toList) ts

/-- Row `structured_sub_row` (app.py lines 201-228): per column, the texts of the
words assigned to it joined by single spaces, empty string otherwise. -/
def structuredSubRow (cols : List (ℚ × ℚ)) (subWords : List Word) : List Txt :=
  (List.range cols.length).map (fun cIdx =>
    let texts := (subWords.filter (fun w => effectiveWordCol cols w == some cIdx)).map (fun w => w.text)
    if texts.isEmpty then [] else joinSpace texts)

/-- Minimum of `y0` over a nonempty word list prepended by a first word. -/
def minY0From (w : Word) (ws : List Word) : ℚ :=
  ws.foldl (fun m v => min m v.y0) w.y0

/-- Entry contributed by one logical sub-row of a marked row
(app.py lines 230-241): discarded when all cells are blank; sort key is the
minimum `y0` of the words whose text occurs in the joined row string, or the
row's span minimum when none does. -/
def subRowEntry (cols : List (ℚ × ℚ)) (rowMinY : ℚ) (subWords : List Word) :
    List (ℚ × List Txt) :=
  let sr := structuredSubRow cols subWords
  if sr.any stripNonEmpty then
    let contributing := subWords.filter (fun w => containsSub w.text (joinSpace sr))
    let y : ℚ :=
      match contributing with
      | [] => rowMinY
      | w :: ws => minY0From w ws
    [(y, sr)]
  else []

/-- Entries contributed by a row containing marked cells
(app.py lines 171-241): rows without any cell bounding box are skipped; the
overlapping page words are re-segmented into logical sub-rows. -/
def markedRowEntries (cols : List (ℚ × ℚ)) (pageWords : List Word) (row : List Cell) :
    List (ℚ × List Txt) :=
  match rowSpan row with
  | none => []
  | some (mn, mx) =>
    let ws := wordsInSpan pageWords mn mx
    ((separate_rows_by_vertical_gap ws).map (fun sub => subRowEntry cols mn sub)).flatten

/-- Best-overlap column for a cell bounding box (app.py lines 274-287):
maximum positive horizontal overlap width, strict `>`, first of a tie wins,
`-1` when no column overlaps. -/
def bestOverlapColAux (cx0 cx1 : ℚ) : Nat → ℚ → Int → List (ℚ × ℚ) → Int
  | _, _, best, [] => best
  | idx, maxW, best, (c0, c1) :: rest =>
    let os := max cx0 c0
    let oe := min cx1 c1
    if oe > os then
      let ow := oe - os
      if ow > maxW then bestOverlapColAux cx0 cx1 (idx + 1) ow (idx : Int) rest
      else bestOverlapColAux cx0 cx1 (idx + 1) maxW best rest
    else bestOverlapColAux cx0 cx1 (idx + 1) maxW best rest

/-- Column assigned to a raw cell (app.py lines 271-303): best overlap, else
closest center. -/
def assignCellCol (cols : List (ℚ × ℚ)) (bb : BBox) : Int :=
  let b := bestOverlapColAux bb.1 bb.2.2.1 0 0 (-1) cols
  if b ≠ -1 then b
  else closestColIdx cols ((bb.1 + bb.2.2.1) / 2)

/-- Update `mapped_raw_row[idx] += " " + text` / `= text` (app.py lines 305-321). -/
def placeText (mapped : List Txt) (idx : Nat) (t : Txt) : List Txt :=
  let cur := mapped.getD idx []
  mapped.set idx (if cur.isEmpty then t else cur ++ (' ' :: t))

/-- Row `mapped_raw_row` (app.py lines 267-321): each cell with non-`None` text is
placed at its assigned column; cells without a bounding box, and cells no
strategy assigns, default to column 0. -/
def mappedRawRow (cols : List (ℚ × ℚ)) (row : List Cell) : List Txt :=
  row.foldl
    (fun mapped c =>
      match c.2 with
      | none => mapped
      | some t =>
        match c.1 with
        | some bb =>
          let a := assignCellCol cols bb
          if a ≠ -1 then placeText mapped a.toNat t
          else if cols.length > 0 then placeText mapped 0 t
          else mapped
        | none =>
          if cols.length > 0 then placeText mapped 0 t else mapped)
    (List.replicate cols.length [])

/-- List `words_in_raw_row` (app.py lines 254-262): the page words overlapping the
row's vertical span, empty when the row has no cell bounding box. -/
def unmarkedRowWords (pageWords : List Word) (row : List Cell) : List Word :=
  match rowSpan row with
  | none => []
  | some (mn, mx) => wordsInSpan pageWords mn mx

/-- Entry contributed by a row without marked cells (app.py lines 243-324):
sort key is the minimum `y0` of the overlapping page words, or
`original_row_idx * 100` when none overlap; discarded when all cells are
blank. -/
def unmarkedRowEntry (cols : List (ℚ × ℚ)) (pageWords : List Word) (idx : Nat)
    (row : List Cell) : List (ℚ × List Txt) :=
  let y : ℚ :=
    match unmarkedRowWords pageWords row with
    | [] => (idx : ℚ) * 100
    | w :: ws => minY0From w ws
  let mapped := mappedRawRow cols row
  if mapped.any stripNonEmpty then [(y, mapped)] else []

/-- Entries contributed by one original row (app.py lines 164-324). -/
def rowEntry (cols : List (ℚ × ℚ)) (pageWords : List Word) (idx : Nat) (row : List Cell) :
    List (ℚ × List Txt) :=
  if rowHasMarkedCell row then markedRowEntries cols pageWords row
  else unmarkedRowEntry cols pageWords idx row

/-- List `rows_with_positions` accumulated over all original rows. -/
def rowsWithPositions (cols : List (ℚ × ℚ)) (pageWords : List Word)
    (tbl : List (List Cell)) : List (ℚ × List Txt) :=
  (tbl.enum.map (fun p => rowEntry cols pageWords p.1 p.2)).flatten

/-- Sort key order of `rows_with_positions.sort(key=lambda x: x[0])`. -/
def keyLe (a b : ℚ × List Txt) : Prop := a.1 ≤ b.1

instance : DecidableRel keyLe := fun a b => by unfold keyLe; infer_instance

/-- Python list indexing `table_rows[h]` for the header index, including the
negative-index wrap-around; an out-of-range index (Python `IndexError`,
unreachable from the pipeline where `h` is `-1` or a valid row index) is
modelled as the empty row. -/
def pyRowAt (tbl : List (List Cell)) (h : Int) : List Cell :=
  if 0 ≤ h then tbl.getD h.toNat []
  else tbl.getD (tbl.length - (-h).toNat) []

/-- Function `create_structured_table(table_rows, header_row_index, page_words)` of app.py. -/
def create_structured_table (table_rows : List (List Cell)) (header_row_index : Int)
    (page_words : List Word) : List (List Txt) :=
  if header_row_index = -1 ∨ header_row_index ≥ (table_rows.length : Int) then []
  else
    let cols := columnBoundaries (pyRowAt table_rows header_row_index)
    if cols.isEmpty then []
    else (List.insertionSort keyLe (rowsWithPositions cols page_words table_rows)).map
      (fun p => p.2)

/-! ## Lemmas about the header scan -/

/-- A row whose metadata flag is set never satisfies the header condition. -/
theorem rowQualifies_false_of_metadata {row : List Cell}
    (h : rowContainsMetadata row = true) : rowQualifiesAsHeader row = false := by
  simp [rowQualifiesAsHeader, h]

/-- A qualifying row overwrites the header state with its own index. -/
theorem headerStep_pos {row : List Cell} (h : rowQualifiesAsHeader row = true)
    (hs : Bool × Int) (idx : Nat) : headerStep hs idx row = (true, (idx : Int)) := by
  simp [headerStep, h]

/-- A non-qualifying row leaves the header state unchanged. -/
theorem headerStep_neg {row : List Cell} (h : rowQualifiesAsHeader row = false)
    (hs : Bool × Int) (idx : Nat) : headerStep hs idx row = hs := by
  simp [headerStep, h]

/-- The header index computed by the scan is the position of the last
qualifying row (in `enumFrom` position order), the incoming index otherwise. -/
theorem headerScanAux_snd : ∀ (tbl : List (List Cell)) (hs : Bool × Int) (idx : Nat),
    (headerScanAux hs idx tbl).2 =
      (((tbl.enumFrom idx).filter (fun p => rowQualifiesAsHeader p.2)).map
        (fun p => (p.1 : Int))).getLastD hs.2
  | [], _, _ => rfl
  | row :: rest, hs, idx => by
    rw [headerScanAux, headerScanAux_snd rest _ _, List.enumFrom_cons, List.filter_cons]
    by_cases h : rowQualifiesAsHeader row = true
    · rw [headerStep_pos h, if_pos (by simpa using h), List.map_cons, List.getLastD_cons]
    · rw [headerStep_neg (by simpa using h), if_neg (by simpa using h)]

/-- Members of the qualifying-index list are positions of qualifying rows. -/
theorem mem_qualIdxs : ∀ (tbl : List (List Cell)) (idx : Nat) (n : Int),
    n ∈ ((tbl.enumFrom idx).filter (fun p => rowQualifiesAsHeader p.2)).map
        (fun p => (p.1 : Int)) →
    ∃ j : Nat, j < tbl.length ∧ n = ((idx + j : Nat) : Int) ∧
      rowQualifiesAsHeader (tbl.getD j []) = true
  | [], idx, n => by simp
  | row :: rest, idx, n => by
    rw [List.enumFrom_cons, List.filter_cons]
    by_cases h : rowQualifiesAsHeader row = true
    · rw [if_pos (by simpa using h)]
      intro hmem
      rcases List.mem_cons.mp hmem with heq | hmem'
      · exact ⟨0, by simp, by simpa using heq, by simpa using h⟩
      · rcases mem_qualIdxs rest (idx + 1) n hmem' with ⟨j, hj, hn, hq⟩
        exact ⟨j + 1, by simpa using hj, by omega, by simpa using hq⟩
    · rw [if_neg (by simpa using h)]
      intro hmem
      rcases mem_qualIdxs rest (idx + 1) n hmem with ⟨j, hj, hn, hq⟩
      exact ⟨j + 1, by simpa using hj, by omega, by simpa using hq⟩

/-- Lemma: `getLastD` is the default or a member. -/
theorem getLastD_eq_or_mem : ∀ (L : List Int) (d : Int), L.getLastD d = d ∨ L.getLastD d ∈ L
  | [], _ => Or.inl rfl
  | a :: L, d => by
    rw [List.getLastD_cons]
    rcases getLastD_eq_or_mem L a with h | h
    · exact Or.inr (by rw [h]; exact List.mem_cons_self a L)
    · exact Or.inr (List.mem_cons_of_mem a h)

/-- C1: for every table scanned by the Header Detector, the reported header
row index is the index of the last row whose matched-keyword count is at
least 3 and whose metadata flag is unset (later qualifying rows overwrite
earlier ones), and the sentinel `-1` is reported when no row qualifies. -/
theorem C1_header_last_qualifying_row_wins (tbl : List (List Cell)) :
    (headerScan tbl).2 =
      (((tbl.enumFrom 0).filter
          (fun p => decide (matchedKeywordCount p.2 ≥ 3) && !rowContainsMetadata p.2)).map
        (fun p => (p.1 : Int))).getLastD (-1) := by
  rw [headerScan, headerScanAux_snd]
  rfl

/-- C2: a row containing a cell whose text sets the metadata flag is never
reported as the header row, regardless of its keyword count. -/
theorem C2_metadata_row_never_selected_as_header (tbl : List (List Cell)) (r : Nat)
    (_hr : r < tbl.length) (hm : rowContainsMetadata (tbl.getD r []) = true) :
    (headerScan tbl).2 ≠ (r : Int) := by
  intro hEq
  rw [headerScan, headerScanAux_snd] at hEq
  rcases getLastD_eq_or_mem
      (((tbl.enumFrom 0).filter (fun p => rowQualifiesAsHeader p.2)).map
        (fun p => (p.1 : Int))) (-1) with hd | hmem
  · rw [hEq] at hd
    omega
  · rw [hEq] at hmem
    rcases mem_qualIdxs tbl 0 (r : Int) hmem with ⟨j, _, hn, hq⟩
    have hjr : j = r := by omega
    rw [hjr, rowQualifies_false_of_metadata hm] at hq
    exact Bool.false_ne_true hq

/-- Fixture: a single-row table whose only cell has three keyword hits and a
`key: value` metadata pattern. -/
def metaRow : List Cell := [(some (0, 0, 10, 10), some ("item qty rate: 5".toList))]

/-- Witness for C2 at a concrete metadata row with three keyword hits. -/
theorem C2_witness :
    ((0 : Nat) < [metaRow].length ∧ rowContainsMetadata ([metaRow].getD 0 []) = true ∧
      matchedKeywordCount ([metaRow].getD 0 []) ≥ 3) ∧
    (headerScan [metaRow]).2 ≠ (0 : Int) :=
  ⟨⟨by decide, by decide, by decide⟩,
   C2_metadata_row_never_selected_as_header [metaRow] 0 (by decide) (by decide)⟩

/-! ## Claims about `separate_rows_by_vertical_gap` and `find_column_for_word` -/

/-- Fixtures for the row-segmentation gap law: three words at tops 0, 1, 2 of
height 10, then a word at top 20. -/
def wA : Word := ⟨("a".toList), 0, 0, 1, 10⟩

def wB : Word := ⟨("b".toList), 1, 1, 2, 11⟩

def wC : Word := ⟨("c".toList), 2, 2, 3, 12⟩

def wD : Word := ⟨("d".toList), 0, 20, 1, 30⟩

/-- C5: on words with tops 0, 1, 2 (height 10) and a fourth word with top 20,
the computed gap threshold is 7 and exactly two logical rows result, the first
holding the three close words and the second the distant one; and in general
the walk starts a new logical row exactly when the next word's top minus the
running-maximum bottom of the current row exceeds the threshold. -/
theorem C5_row_segmentation_gap_law :
    (sepThreshold (sortByYX [wA, wB, wC, wD]) = 7 ∧
     separate_rows_by_vertical_gap [wA, wB, wC, wD] = [[wA, wB, wC], [wD]]) ∧
    (∀ (thr : ℚ) (w : Word) (rest cur : List Word) (curMax : ℚ) (acc : List (List Word)),
      sepAux thr (w :: rest) cur curMax acc =
        if w.y0 - curMax > thr then sepAux thr rest [w] w.y1 (acc ++ [sortByX0 cur])
        else sepAux thr rest (cur ++ [w]) (max curMax w.y1) acc) :=
  ⟨⟨by decide, by decide⟩, fun _ _ _ _ _ _ => rfl⟩

/-- The test `find_column_for_word` applies to one column boundary, exactly as
the source checks it: a strictly positive overlap, and then the ratio test,
full containment, or center containment. -/
def colMatches (wx0 wx1 : ℚ) (cb : ℚ × ℚ) : Bool :=
  decide (min wx1 cb.2 > max wx0 cb.1) &&
    (decide (wx1 - wx0 > 0 ∧
        ((min wx1 cb.2 - max wx0 cb.1) / (wx1 - wx0) > 1/2 ∨
         (min wx1 cb.2 - max wx0 cb.1) / (cb.2 - cb.1) > 1/2)) ||
     decide (wx0 ≥ cb.1 ∧ wx1 ≤ cb.2) ||
     decide ((wx0 + wx1) / 2 ≥ cb.1 ∧ (wx0 + wx1) / 2 ≤ cb.2))

/-- The claim's per-column criterion, following the spec's words: one of the
two overlap ratios exceeds 0.5, the word is fully contained, or the word's
center lies within the column — with no positive-overlap requirement. -/
def specColCriterion (wx0 wx1 : ℚ) (cb : ℚ × ℚ) : Bool :=
  decide ((min wx1 cb.2 - max wx0 cb.1) / (wx1 - wx0) > 1/2) ||
  decide ((min wx1 cb.2 - max wx0 cb.1) / (cb.2 - cb.1) > 1/2) ||
  decide (wx0 ≥ cb.1 ∧ wx1 ≤ cb.2) ||
  decide ((wx0 + wx1) / 2 ≥ cb.1 ∧ (wx0 + wx1) / 2 ≤ cb.2)

/-- The column loop returns the first column position (counting from the
running index) matched by `colMatches`, and `-1` when none matches. -/
theorem fcwAux_eq_findIdx : ∀ (cols : List (ℚ × ℚ)) (wx0 wx1 : ℚ) (idx : Nat),
    fcwAux wx0 wx1 idx cols =
      match cols.findIdx? (colMatches wx0 wx1) idx with
      | some j => (j : Int)
      | none => -1
  | [], _, _, _ => rfl
  | (c0, c1) :: rest, wx0, wx1, idx => by
    rw [List.findIdx?_cons]
    simp only [fcwAux]
    by_cases hov : min wx1 c1 > max wx0 c0
    · by_cases h1 : wx1 - wx0 > 0 ∧
          ((min wx1 c1 - max wx0 c0) / (wx1 - wx0) > 1/2 ∨
           (min wx1 c1 - max wx0 c0) / (c1 - c0) > 1/2)
      · have hm : colMatches wx0 wx1 (c0, c1) = true := by
          unfold colMatches
          rw [decide_eq_true hov, decide_eq_true h1]
          rfl
        rw [if_pos hov, if_pos h1, if_pos hm]
      · by_cases h2 : wx0 ≥ c0 ∧ wx1 ≤ c1
        · have hm : colMatches wx0 wx1 (c0, c1) = true := by
            unfold colMatches
            rw [decide_eq_true hov, decide_eq_false h1, decide_eq_true h2]
            rfl
          rw [if_pos hov, if_neg h1, if_pos h2, if_pos hm]
        · by_cases h3 : (wx0 + wx1) / 2 ≥ c0 ∧ (wx0 + wx1) / 2 ≤ c1
          · have hm : colMatches wx0 wx1 (c0, c1) = true := by
              unfold colMatches
              rw [decide_eq_true hov, decide_eq_false h1, decide_eq_false h2,
                decide_eq_true h3]
              rfl
            rw [if_pos hov, if_neg h1, if_neg h2, if_pos h3, if_pos hm]
          · have hm : colMatches wx0 wx1 (c0, c1) = false := by
              unfold colMatches
              rw [decide_eq_true hov, decide_eq_false h1, decide_eq_false h2,
                decide_eq_false h3]
              rfl
            rw [if_pos hov, if_neg h1, if_neg h2, if_neg h3, if_neg (by simp [hm]),
              fcwAux_eq_findIdx rest wx0 wx1 (idx + 1)]
    · have hm : colMatches wx0 wx1 (c0, c1) = false := by
        unfold colMatches
        rw [decide_eq_false hov]
        rfl
      rw [if_neg hov, if_neg (by simp [hm]), fcwAux_eq_findIdx rest wx0 wx1 (idx + 1)]

/-- C6 counterexample: the zero-width word at x = 3 is fully contained in
column 1 = (2, 4) and its center lies within it, so the claim's criterion
selects column 1, yet `find_column_for_word` returns `-1` because its
containment and center tests are only reached when the overlap is strictly
positive. -/
theorem C6_counterexample :
    List.findIdx? (specColCriterion 3 3) [((0 : ℚ), (1 : ℚ)), (2, 4)] = some 1 ∧
    find_column_for_word 3 3 [((0 : ℚ), (1 : ℚ)), (2, 4)] = -1 :=
  ⟨by decide, by decide⟩

/-- C6 (amended): `find_column_for_word` returns the first column index with a
strictly positive overlap additionally satisfying a ratio test, full
containment, or center containment (and `-1` when no column does); and every
word of positive width fully inside column 1's boundaries with no positive
overlap with the other columns is assigned column 1. -/
theorem C6_first_sufficient_overlap_column :
    (∀ (wx0 wx1 : ℚ) (cols : List (ℚ × ℚ)),
      find_column_for_word wx0 wx1 cols =
        match cols.findIdx? (colMatches wx0 wx1) 0 with
        | some j => (j : Int)
        | none => -1) ∧
    (∀ (cb0 cb1 : ℚ × ℚ) (rest : List (ℚ × ℚ)) (wx0 wx1 : ℚ),
      wx0 < wx1 → cb1.1 ≤ wx0 → wx1 ≤ cb1.2 →
      min wx1 cb0.2 ≤ max wx0 cb0.1 →
      (∀ cb ∈ rest, min wx1 cb.2 ≤ max wx0 cb.1) →
      find_column_for_word wx0 wx1 (cb0 :: cb1 :: rest) = 1) := by
  constructor
  · intro wx0 wx1 cols
    rw [find_column_for_word, fcwAux_eq_findIdx]
  · intro cb0 cb1 rest wx0 wx1 hw h0 h1 hno _
    have hm0 : colMatches wx0 wx1 cb0 = false := by
      unfold colMatches
      rw [decide_eq_false (not_lt.mpr hno)]
      rfl
    have hov : min wx1 cb1.2 > max wx0 cb1.1 := by
      rw [min_eq_left h1]
      calc max wx0 cb1.1 = wx0 := max_eq_left h0
        _ < wx1 := hw
    have hm1 : colMatches wx0 wx1 cb1 = true := by
      have hww : wx1 - wx0 > 0 := by linarith
      have hratio : (min wx1 cb1.2 - max wx0 cb1.1) / (wx1 - wx0) > 1/2 := by
        rw [min_eq_left h1, max_eq_left h0, div_self (ne_of_gt hww)]
        norm_num
      unfold colMatches
      rw [decide_eq_true hov, decide_eq_true (show wx1 - wx0 > 0 ∧
        ((min wx1 cb1.2 - max wx0 cb1.1) / (wx1 - wx0) > 1/2 ∨
         (min wx1 cb1.2 - max wx0 cb1.1) / (cb1.2 - cb1.1) > 1/2) from ⟨hww, Or.inl hratio⟩)]
      rfl
    rw [find_column_for_word, fcwAux_eq_findIdx, List.findIdx?_cons,
      if_neg (by simp [hm0]), List.findIdx?_cons, if_pos hm1]
    rfl

/-- Witness for the amended C6 at the word (2, 3) inside column 1 = (2, 4)
with no positive overlap with column 0 = (0, 1). -/
theorem C6_witness :
    ((2 : ℚ) < 3 ∧ ((2 : ℚ), (4 : ℚ)).1 ≤ 2 ∧ (3 : ℚ) ≤ ((2 : ℚ), (4 : ℚ)).2 ∧
      min (3 : ℚ) ((0 : ℚ), (1 : ℚ)).2 ≤ max (2 : ℚ) ((0 : ℚ), (1 : ℚ)).1) ∧
    find_column_for_word 2 3 [((0 : ℚ), (1 : ℚ)), ((2 : ℚ), (4 : ℚ))] = 1 :=
  ⟨⟨by decide, by decide, by decide, by decide⟩,
   C6_first_sufficient_overlap_column.2 ((0 : ℚ), (1 : ℚ)) ((2 : ℚ), (4 : ℚ)) [] 2 3
     (by decide) (by decide) (by decide) (by decide) (by simp)⟩

/-! ## C10: `separate_rows_by_vertical_gap` partitions its input -/

instance : IsTotal Word x0Le := ⟨fun a b => le_total a.x0 b.x0⟩

instance : IsTrans Word x0Le := ⟨fun _ _ _ h1 h2 => le_trans h1 h2⟩

/-- Sorting a row by `x0` is a permutation. -/
theorem sortByX0_perm (l : List Word) : (sortByX0 l).Perm l :=
  List.perm_insertionSort _ _

/-- Sorting the words by `(y0, x0)` is a permutation. -/
theorem sortByYX_perm (l : List Word) : (sortByYX l).Perm l :=
  List.perm_insertionSort _ _

/-- Sorting a row by `x0` sorts it. -/
theorem sortByX0_sorted (l : List Word) : (sortByX0 l).Pairwise x0Le :=
  List.sorted_insertionSort _ _

/-- A sorted row of a nonempty current row is nonempty. -/
theorem sortByX0_ne_nil {l : List Word} (h : l ≠ []) : sortByX0 l ≠ [] := by
  intro he
  exact h (List.Perm.eq_nil (he ▸ sortByX0_perm l).symm)

/-- The words of the emitted rows are the accumulated rows' words, the current
row's words, and the remaining words, up to permutation. -/
theorem sepAux_flatten_perm (thr : ℚ) :
    ∀ (rest cur : List Word) (curMax : ℚ) (acc : List (List Word)),
      (sepAux thr rest cur curMax acc).flatten.Perm (acc.flatten ++ (cur ++ rest))
  | [], cur, curMax, acc => by
    simp only [sepAux, List.flatten_append, List.flatten_cons, List.flatten_nil,
      List.append_nil]
    exact List.Perm.append_left acc.flatten (sortByX0_perm cur)
  | w :: rest, cur, curMax, acc => by
    simp only [sepAux]
    by_cases h : w.y0 - curMax > thr
    · rw [if_pos h]
      refine (sepAux_flatten_perm thr rest [w] w.y1 (acc ++ [sortByX0 cur])).trans ?_
      rw [List.flatten_append, List.flatten_cons, List.flatten_nil, List.append_nil,
        List.append_assoc]
      exact List.Perm.append_left acc.flatten
        (List.Perm.append_right _ (sortByX0_perm cur))
    · rw [if_neg h]
      refine (sepAux_flatten_perm thr rest (cur ++ [w]) (max curMax w.y1) acc).trans ?_
      rw [List.append_assoc, List.singleton_append]

/-- Every row emitted by the loop is nonempty and sorted by `x0`, provided the
accumulated rows are and the current row is nonempty. -/
theorem sepAux_rows_good (thr : ℚ) :
    ∀ (rest cur : List Word) (curMax : ℚ) (acc : List (List Word)),
      (∀ r ∈ acc, r ≠ [] ∧ r.Pairwise x0Le) → cur ≠ [] →
      ∀ r ∈ sepAux thr rest cur curMax acc, r ≠ [] ∧ r.Pairwise x0Le
  | [], cur, curMax, acc => by
    intro hacc hcur r hr
    rw [sepAux] at hr
    rcases List.mem_append.mp hr with h | h
    · exact hacc r h
    · rw [List.mem_singleton.mp h]
      exact ⟨sortByX0_ne_nil hcur, sortByX0_sorted cur⟩
  | w :: rest, cur, curMax, acc => by
    intro hacc hcur r hr
    rw [sepAux] at hr
    by_cases h : w.y0 - curMax > thr
    · rw [if_pos h] at hr
      refine sepAux_rows_good thr rest [w] w.y1 (acc ++ [sortByX0 cur]) ?_
        (List.cons_ne_nil w []) r hr
      intro r' hr'
      rcases List.mem_append.mp hr' with h' | h'
      · exact hacc r' h'
      · rw [List.mem_singleton.mp h']
        exact ⟨sortByX0_ne_nil hcur, sortByX0_sorted cur⟩
    · rw [if_neg h] at hr
      refine sepAux_rows_good thr rest (cur ++ [w]) (max curMax w.y1) acc hacc ?_ r hr
      simp

/-- C10: the logical rows returned by `separate_rows_by_vertical_gap` form a
partition of the input words up to permutation, every returned row is
nonempty and sorted by `x0`, and the output is empty exactly when the input
is. -/
theorem C10_partition_invariant (ws : List Word) :
    (separate_rows_by_vertical_gap ws).flatten.Perm ws ∧
    (∀ row ∈ separate_rows_by_vertical_gap ws, row ≠ [] ∧ row.Pairwise x0Le) ∧
    (separate_rows_by_vertical_gap ws = [] ↔ ws = []) := by
  have hperm := sortByYX_perm ws
  unfold separate_rows_by_vertical_gap
  cases hs : sortByYX ws with
  | nil =>
    rw [hs] at hperm
    have hws : ws = [] := hperm.symm.eq_nil
    subst hws
    simp
  | cons w rest =>
    rw [hs] at hperm
    refine ⟨?_, ?_, ?_⟩
    · refine (sepAux_flatten_perm (sepThreshold (w :: rest)) rest [w] w.y1 []).trans ?_
      simpa using hperm
    · intro row hrow
      exact sepAux_rows_good _ rest [w] w.y1 [] (by simp) (by simp) row hrow
    · constructor
      · intro h
        exfalso
        have h' : sepAux (sepThreshold (w :: rest)) rest [w] w.y1 [] = [] := h
        have h1 := sepAux_flatten_perm (sepThreshold (w :: rest)) rest [w] w.y1 []
        rw [h'] at h1
        simp at h1
      · intro h
        subst h
        exact absurd hs.symm (by simp [sortByYX, List.insertionSort])

/-- Fixture word for the C10 witness. -/
def wE : Word := ⟨("e".toList), 5, 5, 6, 6⟩

/-- Witness for C10 at the one-word input, with the membership hypothesis
discharged at the returned row `[wE]`. -/
theorem C10_witness :
    (separate_rows_by_vertical_gap [wE]).flatten.Perm [wE] ∧
    ([wE] ≠ ([] : List Word) ∧ [wE].Pairwise x0Le) ∧
    (separate_rows_by_vertical_gap [wE] = [] ↔ ([wE] : List Word) = []) :=
  ⟨(C10_partition_invariant [wE]).1,
   (C10_partition_invariant [wE]).2.1 [wE] (by decide),
   (C10_partition_invariant [wE]).2.2⟩

/-! ## Claims about the marking scan (C3, C4, C7, C8) -/

/-- Fixture: a header row with three keyword cells and bounding boxes. -/
def hdrRow : List Cell :=
  [(some (0, 0, 10, 10), some ("item".toList)),
   (some (10, 0, 20, 10), some ("qty".toList)),
   (some (20, 0, 30, 10), some ("rate".toList))]

/-- Fixture for C3: a post-header row whose first cell has text and a bounding
box (assigning the persistent word list) and whose second cell has text but no
bounding box; the two `None`-bbox cells make the row marking-eligible. -/
def c3Row : List Cell :=
  [(some (0, 10, 100, 20), some ("hello".toList)),
   (none, some ("world".toList)),
   (none, none)]

/-- Fixture for C3: two words inside the first cell of `c3Row`, of width 10
each and with a horizontal gap of 40 between them. -/
def c3Words : List Word :=
  [⟨("w".toList), 0, 12, 10, 18⟩, ⟨("v".toList), 50, 12, 60, 18⟩]

/-- Fixture for C4: a marking-eligible row whose first cell has neither text
nor bounding box, reached before any cell has assigned the word list. -/
def c4Row : List Cell :=
  [(none, none), (none, some ("x".toList)), (some (0, 10, 10, 20), some ("y".toList))]

/-- Fixture for C7: a data row with a single `None`-bbox cell
(`none_count = 1`), so the marking guard fails for it. -/
def c7Row : List Cell :=
  [(some (0, 10, 10, 20), some ("5".toList)),
   (some (10, 10, 20, 20), some ("6".toList)),
   (none, none)]

/-- Fixture for C8: a marking-eligible row whose first cell text has four
newlines, a digit, a letter, a symbol and several tokens, so marking
condition (a) fires on it — also after it has been prefixed once. -/
def c8Row : List Cell :=
  [(some (0, 10, 100, 20), some ("1 $a\n\n\n\nb".toList)), (none, none), (none, none)]

/-- C3: at the fixture input, the scan completes and marks the second cell of
the data row with `#$ ` although that cell has no bounding box — condition
(b)'s word-collection step was skipped for it and condition (a) is false for
its text, so the mark can only come from the sum-of-gaps condition (c)
evaluated on the word list and average width left behind by the first cell. -/
theorem C3_sum_of_gaps_reads_stale_word_list :
    scanTable [hdrRow, c3Row] c3Words =
      .ok ([hdrRow,
        [(some (0, 10, 100, 20), some (("#$ hello").toList)),
         (none, some (("#$ world").toList)),
         (none, none)]], (true, 0)) ∧
    (c3Row.getD 1 (none, none)).1 = none ∧
    shouldMarkContent ("world".toList) = false :=
  ⟨by rfl, by rfl, by decide⟩

/-- C4: at the fixture input the marking loop reads the never-assigned word
list (Python `NameError`) and the scan aborts instead of completing. -/
theorem C4_marking_raises_on_unassigned_word_list :
    scanTable [hdrRow, c4Row] [] = .error () := by rfl

/-- The guard sequence of the `[]` table is `[]`, so `getD` yields the
default; rows beyond the table never satisfy the unmarked conclusion
vacuously. -/
theorem scanRowsAux_unmarked (pageWords : List Word) :
    ∀ (tbl : List (List Cell)) (hs : Bool × Int) (ms : MarkSt) (idx : Nat)
      (out : List (List Cell) × (Bool × Int)),
      scanRowsAux pageWords hs ms idx tbl = .ok out →
      ∀ r, r < tbl.length → (guardSeq hs idx tbl).getD r true = false →
        out.1.getD r [] = tbl.getD r []
  | [], _, _, _, _ => by
    intro _ r hr
    exact absurd hr (by simp)
  | row :: rest, hs, ms, idx, out => by
    intro h r hr hg
    rw [scanRowsAux] at h
    rw [guardSeq] at hg
    by_cases hguard : markGuard (headerStep hs idx row) idx row = true
    · rw [if_pos hguard] at h
      cases hm : markCellsAux pageWords ms row with
      | error e => rw [hm] at h; exact absurd h (by simp)
      | ok p =>
        obtain ⟨row', ms'⟩ := p
        rw [hm] at h
        dsimp only [] at h
        cases hrec : scanRowsAux pageWords (headerStep hs idx row) ms' (idx + 1) rest with
        | error e => rw [hrec] at h; exact absurd h (by simp)
        | ok q =>
          obtain ⟨rest', hsF⟩ := q
          rw [hrec] at h
          dsimp only [] at h
          injection h with h'
          subst h'
          cases r with
          | zero => simp [hguard] at hg
          | succ r' =>
            simp only [List.getD_cons_succ] at hg ⊢
            exact scanRowsAux_unmarked pageWords rest (headerStep hs idx row) ms' (idx + 1)
              (rest', hsF) hrec r' (by simpa using hr) hg
    · rw [if_neg hguard] at h
      cases hrec : scanRowsAux pageWords (headerStep hs idx row) ms (idx + 1) rest with
      | error e => rw [hrec] at h; exact absurd h (by simp)
      | ok q =>
        obtain ⟨rest', hsF⟩ := q
        rw [hrec] at h
        dsimp only [] at h
        injection h with h'
        subst h'
        cases r with
        | zero => rfl
        | succ r' =>
          simp only [List.getD_cons_succ] at hg ⊢
          exact scanRowsAux_unmarked pageWords rest (headerStep hs idx row) ms (idx + 1)
            (rest', hsF) hrec r' (by simpa using hr) hg

/-- C7: in a completed scan, a row whose marking guard — header already found,
row index strictly greater than the header index current when the row is
scanned, and more than one `None`-bbox cell — is false comes out unchanged:
none of its cells is prefixed. -/
theorem C7_cells_marked_only_under_guard (tbl : List (List Cell)) (ws : List Word)
    (out : List (List Cell) × (Bool × Int)) (h : scanTable tbl ws = .ok out)
    (r : Nat) (hr : r < tbl.length)
    (hg : (guardSeq (false, -1) 0 tbl).getD r true = false) :
    out.1.getD r [] = tbl.getD r [] :=
  scanRowsAux_unmarked ws tbl (false, -1) ⟨none, none⟩ 0 out h r hr hg

/-- Witness for C7: the data row with a single `None`-bbox cell fails the
guard and survives the scan unchanged. -/
theorem C7_witness :
    (scanTable [hdrRow, c7Row] [] = .ok ([hdrRow, c7Row], (true, 0)) ∧
      (1 : Nat) < [hdrRow, c7Row].length ∧
      (guardSeq (false, -1) 0 [hdrRow, c7Row]).getD 1 true = false) ∧
    ([hdrRow, c7Row], ((true : Bool), (0 : Int))).1.getD 1 [] = [hdrRow, c7Row].getD 1 [] :=
  ⟨⟨by rfl, by decide, by decide⟩,
   C7_cells_marked_only_under_guard [hdrRow, c7Row] [] ([hdrRow, c7Row], (true, 0))
     (by rfl) 1 (by decide) (by decide)⟩

/-- Relation between a cell before and after one marking pass: unchanged, or
its text prefixed once with `#$ `. -/
def cellMarkRel (cIn cOut : Cell) : Prop :=
  cOut = cIn ∨ ∃ t, cIn.2 = some t ∧ cOut = (cIn.1, some (("#$ ".toList) ++ t))

/-- Lemma: `markApply` leaves a cell alone or prefixes its text once. -/
theorem markApply_rel (c : Cell) (b : Bool) : cellMarkRel c (markApply c b) := by
  obtain ⟨bb, tx⟩ := c
  cases tx with
  | none => exact Or.inl rfl
  | some t =>
    unfold markApply
    dsimp only []
    by_cases hb : (b && !t.isEmpty && stripNonEmpty t) = true
    · rw [if_pos hb]
      exact Or.inr ⟨t, rfl, rfl⟩
    · rw [if_neg hb]
      exact Or.inl rfl

/-- A successful per-cell marking step relates input and output cell. -/
theorem markCellStep_rel (pageWords : List Word) (st : MarkSt) (c c' : Cell) (st' : MarkSt)
    (h : markCellStep pageWords st c = .ok (c', st')) : cellMarkRel c c' := by
  unfold markCellStep at h
  dsimp only [] at h
  cases hcw : (horizontalGapStep pageWords st c).2.cellWords with
  | none => rw [hcw] at h; exact absurd h (by simp)
  | some ws =>
    rw [hcw] at h
    dsimp only [] at h
    by_cases hlen : ws.length > 1
    · rw [if_pos hlen] at h
      cases hav : (horizontalGapStep pageWords st c).2.avgWidth with
      | none => rw [hav] at h; exact absurd h (by simp)
      | some avg =>
        rw [hav] at h
        dsimp only [] at h
        injection h with h'
        injection h' with h1 h2
        rw [← h1]
        exact markApply_rel c _
    · rw [if_neg hlen] at h
      injection h with h'
      injection h' with h1 h2
      rw [← h1]
      exact markApply_rel c _

/-- A successful marking pass over a row relates it cell by cell to its
output. -/
theorem markCellsAux_rel (pageWords : List Word) :
    ∀ (row : List Cell) (st : MarkSt) (out : List Cell × MarkSt),
      markCellsAux pageWords st row = .ok out → List.Forall₂ cellMarkRel row out.1
  | [], st, out => by
    intro h
    injection h with h'
    rw [← h']
    exact List.Forall₂.nil
  | c :: rest, st, out => by
    intro h
    rw [markCellsAux] at h
    cases hstep : markCellStep pageWords st c with
    | error e => rw [hstep] at h; exact absurd h (by simp)
    | ok p =>
      obtain ⟨c', st'⟩ := p
      rw [hstep] at h
      dsimp only [] at h
      cases hrec : markCellsAux pageWords st' rest with
      | error e => rw [hrec] at h; exact absurd h (by simp)
      | ok q =>
        obtain ⟨rest', st''⟩ := q
        rw [hrec] at h
        dsimp only [] at h
        injection h with h'
        rw [← h']
        exact List.Forall₂.cons (markCellStep_rel pageWords st c c' st' hstep)
          (markCellsAux_rel pageWords rest st' (rest', st'') hrec)

/-- A successful scan relates the table row by row, cell by cell, to its
output. -/
theorem scanRowsAux_rel (pageWords : List Word) :
    ∀ (tbl : List (List Cell)) (hs : Bool × Int) (ms : MarkSt) (idx : Nat)
      (out : List (List Cell) × (Bool × Int)),
      scanRowsAux pageWords hs ms idx tbl = .ok out →
      List.Forall₂ (List.Forall₂ cellMarkRel) tbl out.1
  | [], _, _, _, out => by
    intro h
    injection h with h'
    rw [← h']
    exact List.Forall₂.nil
  | row :: rest, hs, ms, idx, out => by
    intro h
    rw [scanRowsAux] at h
    by_cases hguard : markGuard (headerStep hs idx row) idx row = true
    · rw [if_pos hguard] at h
      cases hm : markCellsAux pageWords ms row with
      | error e => rw [hm] at h; exact absurd h (by simp)
      | ok p =>
        obtain ⟨row', ms'⟩ := p
        rw [hm] at h
        dsimp only [] at h
        cases hrec : scanRowsAux pageWords (headerStep hs idx row) ms' (idx + 1) rest with
        | error e => rw [hrec] at h; exact absurd h (by simp)
        | ok q =>
          obtain ⟨rest', hsF⟩ := q
          rw [hrec] at h
          dsimp only [] at h
          injection h with h'
          rw [← h']
          exact List.Forall₂.cons (markCellsAux_rel pageWords row ms (row', ms') hm)
            (scanRowsAux_rel pageWords rest (headerStep hs idx row) ms' (idx + 1)
              (rest', hsF) hrec)
    · rw [if_neg hguard] at h
      cases hrec : scanRowsAux pageWords (headerStep hs idx row) ms (idx + 1) rest with
      | error e => rw [hrec] at h; exact absurd h (by simp)
      | ok q =>
        obtain ⟨rest', hsF⟩ := q
        rw [hrec] at h
        dsimp only [] at h
        injection h with h'
        rw [← h']
        exact List.Forall₂.cons
          (List.forall₂_same.mpr (fun c _ => Or.inl rfl))
          (scanRowsAux_rel pageWords rest (headerStep hs idx row) ms (idx + 1)
            (rest', hsF) hrec)

/-- C8 (amended): one marking pass prefixes each cell at most once — every
output cell is its input cell unchanged or with a single `#$ ` prefix — so a
cell whose input text does not begin with `#$` never comes out doubly
prefixed; re-applying the pass to an already-marked table, however, prefixes
again (see the counterexample). -/
theorem C8_single_pass_marks_each_cell_at_most_once (tbl : List (List Cell))
    (ws : List Word) (out : List (List Cell) × (Bool × Int))
    (h : scanTable tbl ws = .ok out) :
    List.Forall₂ (List.Forall₂ cellMarkRel) tbl out.1 :=
  scanRowsAux_rel ws tbl (false, -1) ⟨none, none⟩ 0 out h

/-- The scan applied twice in sequence (the Corruption Marker invoked twice
on the same table). -/
def markTwice (tbl : List (List Cell)) (ws : List Word) : Except Unit (List (List Cell)) :=
  match scanTable tbl ws with
  | .error e => .error e
  | .ok (t1, _) =>
    match scanTable t1 ws with
    | .error e => .error e
    | .ok (t2, _) => .ok t2

/-- C8 counterexample: applying the Corruption Marker twice to the fixture
table yields a cell text beginning with the double prefix `#$ #$ ` — the
source has no guard against re-marking an already-marked cell. -/
theorem C8_counterexample :
    (markTwice [hdrRow, c8Row] []).map
      (fun t => beginsWith ("#$ #$ ".toList) (((t.getD 1 []).getD 0 (none, none)).2.getD [])) =
      .ok true := by rfl

/-- Expected output of one marking pass on the C8 fixture. -/
def c8Out : List (List Cell) :=
  [hdrRow,
   [(some (0, 10, 100, 20), some (("#$ 1 $a\n\n\n\nb").toList)), (none, none), (none, none)]]

/-- Witness for the amended C8 at the fixture table. -/
theorem C8_witness :
    scanTable [hdrRow, c8Row] [] = .ok (c8Out, (true, 0)) ∧
    List.Forall₂ (List.Forall₂ cellMarkRel) [hdrRow, c8Row] c8Out :=
  ⟨by rfl,
   C8_single_pass_marks_each_cell_at_most_once [hdrRow, c8Row] [] (c8Out, (true, 0)) (by rfl)⟩

/-! ## C9: rows with no overlapping words -/

/-- Fixture for C9: a non-blank marked data row (text `#$ x`) with a bounding
box no page word overlaps. -/
def c9MarkedRow : List Cell :=
  [(some (0, 100, 10, 110), some ("#$ x".toList)), (none, none), (none, none)]

/-- Fixture for the C9 witness: the same row unmarked. -/
def c9UnmarkedRow : List Cell :=
  [(some (0, 100, 10, 110), some ("x".toList)), (none, none), (none, none)]

/-- C9 counterexample: with no page words at all, the non-blank marked row
contributes nothing — the structured table holds only the header-derived row,
so in the marked-row path a row with no overlapping words IS dropped. -/
theorem C9_counterexample :
    rowHasMarkedCell c9MarkedRow = true ∧
    stripNonEmpty ("#$ x".toList) = true ∧
    create_structured_table [hdrRow, c9MarkedRow] 0 [] =
      [[("item".toList), ("qty".toList), ("rate".toList)]] :=
  ⟨by decide, by decide, by rfl⟩

/-- C9 (amended): in the unmarked-row path the claim holds — a non-blank row
without marked cells that no page word overlaps still contributes its entry,
with the synthesized sort key `original_row_idx * 100`, and its mapped cells
appear in the final structured table.  (In the marked-row path such a row is
dropped; see the counterexample.) -/
theorem C9_unmarked_row_kept_with_synthesized_key (tbl : List (List Cell)) (h : Int)
    (ws : List Word) (r : Nat)
    (hh0 : 0 ≤ h) (hhlen : ¬ h ≥ (tbl.length : Int))
    (hcols : columnBoundaries (pyRowAt tbl h) ≠ [])
    (hr : r < tbl.length)
    (hunmarked : rowHasMarkedCell (tbl.getD r []) = false)
    (hnowords : unmarkedRowWords ws (tbl.getD r []) = [])
    (hnonblank :
      (mappedRawRow (columnBoundaries (pyRowAt tbl h)) (tbl.getD r [])).any stripNonEmpty
        = true) :
    ((r : ℚ) * 100, mappedRawRow (columnBoundaries (pyRowAt tbl h)) (tbl.getD r []))
      ∈ rowsWithPositions (columnBoundaries (pyRowAt tbl h)) ws tbl ∧
    mappedRawRow (columnBoundaries (pyRowAt tbl h)) (tbl.getD r [])
      ∈ create_structured_table tbl h ws := by
  have hentry : rowEntry (columnBoundaries (pyRowAt tbl h)) ws r (tbl.getD r []) =
      [((r : ℚ) * 100, mappedRawRow (columnBoundaries (pyRowAt tbl h)) (tbl.getD r []))] := by
    unfold rowEntry
    rw [if_neg (by rw [hunmarked]; exact Bool.false_ne_true)]
    unfold unmarkedRowEntry
    rw [hnowords]
    dsimp only []
    rw [if_pos hnonblank]
  have hmem : ((r : ℚ) * 100, mappedRawRow (columnBoundaries (pyRowAt tbl h)) (tbl.getD r []))
      ∈ rowsWithPositions (columnBoundaries (pyRowAt tbl h)) ws tbl := by
    unfold rowsWithPositions
    rw [List.mem_flatten]
    refine ⟨rowEntry (columnBoundaries (pyRowAt tbl h)) ws r (tbl.getD r []), ?_,
      by rw [hentry]; exact List.mem_singleton_self _⟩
    refine List.mem_map.mpr ⟨(r, tbl.getD r []), ?_, rfl⟩
    have hgd : tbl.getD r [] = tbl[r] := List.getD_eq_getElem tbl [] hr
    have hlen : r < tbl.enum.length := by simpa using hr
    have h1 : (r, tbl.getD r []) = tbl.enum[r] := by
      rw [List.getElem_enum, hgd]
    rw [h1]
    exact List.getElem_mem hlen
  refine ⟨hmem, ?_⟩
  unfold create_structured_table
  rw [if_neg (by push_neg; omega)]
  dsimp only []
  rw [if_neg (by simpa using hcols)]
  refine List.mem_map.mpr
    ⟨((r : ℚ) * 100, mappedRawRow (columnBoundaries (pyRowAt tbl h)) (tbl.getD r [])), ?_, rfl⟩
  exact ((List.perm_insertionSort keyLe _).mem_iff).mpr hmem

/-- Witness for the amended C9: the unmarked fixture row, with no page words,
is kept with key 100. -/
theorem C9_witness :
    ((0 : Int) ≤ 0 ∧ ¬ (0 : Int) ≥ (([hdrRow, c9UnmarkedRow] : List (List Cell)).length : Int) ∧
      columnBoundaries (pyRowAt [hdrRow, c9UnmarkedRow] 0) ≠ [] ∧
      (1 : Nat) < [hdrRow, c9UnmarkedRow].length ∧
      rowHasMarkedCell ([hdrRow, c9UnmarkedRow].getD 1 []) = false ∧
      unmarkedRowWords [] ([hdrRow, c9UnmarkedRow].getD 1 []) = [] ∧
      (mappedRawRow (columnBoundaries (pyRowAt [hdrRow, c9UnmarkedRow] 0))
        ([hdrRow, c9UnmarkedRow].getD 1 [])).any stripNonEmpty = true) ∧
    (((1 : Nat) : ℚ) * 100,
        mappedRawRow (columnBoundaries (pyRowAt [hdrRow, c9UnmarkedRow] 0))
          ([hdrRow, c9UnmarkedRow].getD 1 []))
      ∈ rowsWithPositions (columnBoundaries (pyRowAt [hdrRow, c9UnmarkedRow] 0)) []
          [hdrRow, c9UnmarkedRow] ∧
    mappedRawRow (columnBoundaries (pyRowAt [hdrRow, c9UnmarkedRow] 0))
        ([hdrRow, c9UnmarkedRow].getD 1 [])
      ∈ create_structured_table [hdrRow, c9UnmarkedRow] 0 [] := by
  refine ⟨⟨by decide, by decide, by decide, by decide, by decide, by decide, by decide⟩, ?_, ?_⟩
  · exact (C9_unmarked_row_kept_with_synthesized_key [hdrRow, c9UnmarkedRow] 0 [] 1
      (by decide) (by decide) (by decide) (by decide) (by decide) (by decide) (by decide)).1
  · exact (C9_unmarked_row_kept_with_synthesized_key [hdrRow, c9UnmarkedRow] 0 [] 1
      (by decide) (by decide) (by decide) (by decide) (by decide) (by decide) (by decide)).2

end App
